import Mathlib

set_option maxRecDepth 100000

/-!
Verification development for the attendly repository: a shallow embedding of
its calendar utilities (dateUtils), bank-holiday table, leave working-day
counter, and the office-tracker compliance calculator with its mutation
handlers, together with theorems settling the specification claims.

Modelling conventions:
- A JS `Date` at local midnight is modelled as a `CalDate` triple of
  year / month (1-based) / day.  JS `Date` comparison is numeric timestamp
  comparison, which for midnight dates coincides with comparison of the
  day number `dayNumber` below.
- JS number-to-string conversion (decimal, no padding) is `natToChars`;
  `padStart(2, '0')` is `pad2`.
- JS `Set<string>` values whose only used operations are add / has /
  spread-count are modelled as `Finset String` or `List String`;
  `Map<string, ...>` as an association list with JS `Map` set / delete
  semantics.
- Floating-point arithmetic in the calculator (`Math.ceil(w * pct / 100)`,
  `Math.round((sel / req) * 100)`, `sel >= req * 0.75`) is modelled by exact
  integer arithmetic.  On the reachable domain (`w, sel, req ≤ 31`,
  `pct ≤ 100` an integer) the IEEE-double computations are exact enough that
  the integer model agrees: products up to 3100 and the constant 0.75 are
  exactly representable, and quotients `k/100`, `100*s/r` are never close
  enough to an integer (resp. half-integer) boundary for the single rounding
  error of a correctly-rounded division to change the ceil / round result.
-/

/-- Decimal digit characters of a natural number, most significant first.
The first argument is recursion fuel; it is always called with fuel
greater than the number. -/
def natToCharsAux : Nat → Nat → List Char
  | 0, _ => []
  | fuel + 1, n =>
    if n < 10 then [Nat.digitChar n]
    else natToCharsAux fuel (n / 10) ++ [Nat.digitChar (n % 10)]

/-- Decimal representation of a natural number as a character list; this is
the JS template-literal rendering of a nonnegative integer. -/
def natToChars (n : Nat) : List Char := natToCharsAux (n + 1) n

/-- Model of `String(n).padStart(2, '0')` for a natural number `n`. -/
def pad2 (n : Nat) : List Char :=
  if n < 10 then '0' :: natToChars n else natToChars n

/-- Value of a digit string, as computed by JS `Number` on an all-digit
string: a decimal left fold. -/
def parseDigits (l : List Char) : Nat :=
  l.foldl (fun a c => 10 * a + (c.toNat - 48)) 0

/-- A calendar date: year, 1-based month, 1-based day of month.  This is the
value of a JS `Date` at local midnight, read through `getFullYear`,
`getMonth() + 1` and `getDate`. -/
structure CalDate where
  year : Nat
  month : Nat
  day : Nat
deriving DecidableEq, Repr

/-- Gregorian leap-year rule (as implemented by the JS `Date` calendar). -/
def isLeapYear (y : Nat) : Bool :=
  (y % 4 == 0 && y % 100 != 0) || y % 400 == 0

/-- Number of days in month `m` (1-based) of year `y`; this is
`new Date(y, m, 0).getDate()`. -/
def daysInMonth (y m : Nat) : Nat :=
  if m = 2 then (if isLeapYear y then 29 else 28)
  else if m = 4 ∨ m = 6 ∨ m = 9 ∨ m = 11 then 30
  else 31

/-- A triple denotes a real calendar date: month in 1..12 and day within the
month's length. -/
def validDate (dt : CalDate) : Bool :=
  decide (1 ≤ dt.month ∧ dt.month ≤ 12 ∧ 1 ≤ dt.day ∧
    dt.day ≤ daysInMonth dt.year dt.month)

/-- Number of leap years strictly below `y` (year 0 counts as leap,
proleptically), in closed form: multiples of 4 below `y`, minus multiples of
100, plus multiples of 400. -/
def numLeapsBelow (y : Nat) : Nat :=
  (y + 3) / 4 - (y + 99) / 100 + (y + 399) / 400

/-- Length of year `y` in days. -/
def daysInYear (y : Nat) : Nat := if isLeapYear y then 366 else 365

/-- Number of days in all years strictly before `y` (from year 0). -/
def daysBeforeYear (y : Nat) : Nat := 365 * y + numLeapsBelow y

/-- Number of days of year `y` strictly before month `m` (1-based). -/
def daysBeforeMonth (y : Nat) : Nat → Nat
  | 0 => 0
  | m + 1 => daysBeforeMonth y m + (if 1 ≤ m then daysInMonth y m else 0)

/-- Linear day number of a date (days since 0000-01-01).  The timestamp of a
JS `Date` at local midnight is an increasing affine function of this, so JS
`Date` comparisons are `dayNumber` comparisons. -/
def dayNumber (dt : CalDate) : Nat :=
  daysBeforeYear dt.year + daysBeforeMonth dt.year dt.month + (dt.day - 1)

/-- Successor date: the effect of `d.setDate(d.getDate() + 1)` on a valid
date (JS normalizes day overflow into the next month / year). -/
def nextDay (dt : CalDate) : CalDate :=
  if dt.day < daysInMonth dt.year dt.month then ⟨dt.year, dt.month, dt.day + 1⟩
  else if dt.month < 12 then ⟨dt.year, dt.month + 1, 1⟩
  else ⟨dt.year + 1, 1, 1⟩

/-- Day of week in the JS `getDay` convention: 0 = Sunday .. 6 = Saturday.
0000-01-01 (day number 0) is a Saturday in the proleptic Gregorian
calendar. -/
def dayOfWeek (dt : CalDate) : Nat := (dayNumber dt + 6) % 7

/-- Source `isWeekend`: the date's day-of-week is Saturday or Sunday. -/
def isWeekend (dt : CalDate) : Bool :=
  dayOfWeek dt == 0 || dayOfWeek dt == 6

/-- Chronological strict order on date triples, component-lexicographic. -/
def dateLex (a b : CalDate) : Prop :=
  a.year < b.year ∨ (a.year = b.year ∧
    (a.month < b.month ∨ (a.month = b.month ∧ a.day < b.day)))

instance (a b : CalDate) : Decidable (dateLex a b) := by
  unfold dateLex; infer_instance

/-- Source `formatDate`: renders a date as `YYYY-MM-DD`.  The year is
rendered with no padding (template literal), month and day are
zero-padded to two characters. -/
def formatDate (dt : CalDate) : String :=
  ⟨natToChars dt.year ++ '-' :: (pad2 dt.month ++ '-' :: pad2 dt.day)⟩

/-- Source `parseDate`: splits on `'-'`, converts the fields with `Number`,
and builds `new Date(y, m - 1, d)`.  The JS `Date` constructor maps
constructor years 0..99 to 1900..1999; for the in-range month / day fields
this embedding considers, no further normalization occurs. -/
def parseDate (s : String) : CalDate :=
  let l := s.data
  let yc := l.takeWhile (fun c => c != '-')
  let r1 := (l.dropWhile (fun c => c != '-')).drop 1
  let mc := r1.takeWhile (fun c => c != '-')
  let dc := (r1.dropWhile (fun c => c != '-')).drop 1
  let y := parseDigits yc
  ⟨if y ≤ 99 then 1900 + y else y, parseDigits mc, parseDigits dc⟩

/-- Modelled from the spec: a DateKey with all components zero-padded
(`YYYY-MM-DD`, four-digit year field).  The source has no such builder —
`formatDate` pads only month and day — so this follows the spec's words for
comparison in the round-trip claim. -/
def pad4 (n : Nat) : List Char :=
  if n < 10 then '0' :: '0' :: '0' :: natToChars n
  else if n < 100 then '0' :: '0' :: natToChars n
  else if n < 1000 then '0' :: natToChars n
  else natToChars n

/-- Modelled from the spec: the fully zero-padded DateKey string of a
(year, month, day) triple. -/
def zeroPaddedKey (y m d : Nat) : String :=
  ⟨pad4 y ++ '-' :: (pad2 m ++ '-' :: pad2 d)⟩

/-- The static England and Wales bank-holiday table (keys of
`BANK_HOLIDAY_MAP`, 2025-2026). -/
def BANK_HOLIDAYS : List String :=
  ["2025-01-01", "2025-04-18", "2025-04-21", "2025-05-05", "2025-05-26",
   "2025-08-25", "2025-12-25", "2025-12-26",
   "2026-01-01", "2026-04-03", "2026-04-06", "2026-05-04", "2026-05-25",
   "2026-08-31", "2026-12-25", "2026-12-28"]

/-- Source `isBankHoliday`: membership in the static table. -/
def isBankHoliday (dateStr : String) : Bool :=
  BANK_HOLIDAYS.contains dateStr

/-- Loop body of source `getDaysInRange`: `while (cur <= last) push(cur); cur++`.
The fuel argument bounds the number of iterations; `getDaysInRange` supplies
fuel equal to the exact iteration count, so the loop never runs dry. -/
def rangeLoopFuel : Nat → CalDate → CalDate → List CalDate
  | 0, _, _ => []
  | fuel + 1, cur, last =>
    if dayNumber cur ≤ dayNumber last then
      cur :: rangeLoopFuel fuel (nextDay cur) last
    else []

/-- Source `getDaysInRange`: all dates from `start` to `stop` inclusive
(empty when `start` is after `stop`). -/
def getDaysInRange (start stop : CalDate) : List CalDate :=
  rangeLoopFuel (dayNumber stop + 1 - dayNumber start) start stop

/-- Model of the JS constructor `new Date(y, m, d)` on the argument shapes
this codebase uses: a 0-based month index `m ≥ 0` (which may exceed 11 and
then carries into the year) and a day `d` with `1 - 7 < d ≤` length of the
target month, so at most one month of day borrowing is needed. -/
def jsDate (y m : Nat) (d : Int) : CalDate :=
  if 1 ≤ d then ⟨y + m / 12, m % 12 + 1, d.toNat⟩
  else if m % 12 = 0 then
    ⟨y + m / 12 - 1, 12, ((daysInMonth (y + m / 12 - 1) 12 : Int) + d).toNat⟩
  else ⟨y + m / 12, m % 12, ((daysInMonth (y + m / 12) (m % 12) : Int) + d).toNat⟩

/-- Number of days in the month with 0-based index `m` of year `y`, computed
as in the source: `new Date(y, m + 1, 0).getDate()`. -/
def daysInMonthIdx (y m : Nat) : Nat := (jsDate y (m + 1) 0).day

/-- Monday-first column of the first day of the month with 0-based index
`m`: source `(firstDay.getDay() + 6) % 7`. -/
def startOffset (y m : Nat) : Nat := (dayOfWeek (jsDate y m 1) + 6) % 7

/-- Source `getCalendarGrid`: `startOffset` leading `null` cells followed by
the formatted dates of the month; no trailing cells are appended. -/
def getCalendarGrid (y m : Nat) : List (Option String) :=
  List.replicate (startOffset y m) none ++
    (List.range (daysInMonthIdx y m)).map
      (fun i => some (formatDate (jsDate y m (Int.ofNat i + 1))))

/-- Source `buildFullCalendarGrid` (Leave page): previous-month spill-over
cells, the month's dates, then next-month spill-over completing the last
row; each cell is the formatted date paired with its `inMonth` flag. -/
def buildFullCalendarGrid (y m : Nat) : List (String × Bool) :=
  let off := startOffset y m
  let leading := (List.range off).map
    (fun i => (formatDate (jsDate y m (1 - (off : Int) + Int.ofNat i)), false))
  let current := (List.range (daysInMonthIdx y m)).map
    (fun i => (formatDate (jsDate y m (Int.ofNat i + 1)), true))
  let cells := leading ++ current
  let rem := cells.length % 7
  if rem = 0 then cells
  else cells ++ (List.range (7 - rem)).map
    (fun i => (formatDate (jsDate y (m + 1) (Int.ofNat i + 1)), false))

/-- Source `countWorkingDays` (Leave page): zero for an inverted range,
otherwise the days of the inclusive range that are neither weekends nor bank
holidays.  The comparison `start > end` on JS dates is timestamp comparison,
i.e. `dayNumber` comparison.  Manual office-tracker exclusions play no part:
the function has no exclusion input. -/
def countWorkingDays (fromDate toDate : String) : Nat :=
  let start := parseDate fromDate
  let stop := parseDate toDate
  if dayNumber stop < dayNumber start then 0
  else ((getDaysInRange start stop).filter
    (fun d => !(isWeekend d) && !(isBankHoliday (formatDate d)))).length

/-- Kind tag of a manual exclusion entry. -/
inductive ExclusionType
  | excluded
  | holiday
deriving DecidableEq, Repr

/-- Membership test of a key in the exclusion map (`Map.has`). -/
def hasKey (m : List (String × ExclusionType)) (k : String) : Bool :=
  m.any (fun p => p.1 == k)

/-- JS `Map.set`: overwrite the value in place if the key exists, else
append the new binding. -/
def mapSet (m : List (String × ExclusionType)) (k : String)
    (v : ExclusionType) : List (String × ExclusionType) :=
  if m.any (fun p => p.1 == k) then
    m.map (fun p => if p.1 == k then (k, v) else p)
  else m ++ [(k, v)]

/-- JS `Map.delete`: drop the binding of the key, if any. -/
def mapDelete (m : List (String × ExclusionType)) (k : String) :
    List (String × ExclusionType) :=
  m.filter (fun p => p.1 != k)

/-- Three-state compliance classification. -/
inductive ComplianceStatus
  | onTrack
  | atRisk
  | notMeeting
deriving DecidableEq, Repr

/-- Outcome of the working-day-pool loop for one date: which branch of the
if / continue chain in the source `calc` fires. -/
inductive PoolClass
  | weekend
  | bankHoliday
  | manualExcluded
  | holidayLeave
  | working
deriving DecidableEq, Repr

/-- State of the OfficeTracker page relevant to the calculator and the
mutation handlers.  `viewMonthIdx` is the 0-based JS month index of
`viewMonth`; `holidayLeaveDays` is the leave overlay set (only membership is
used, so a list models the JS `Set`). -/
structure TrackerState where
  viewYear : Nat
  viewMonthIdx : Nat
  reqValue : Nat
  officeDays : Finset String
  excludedDays : List (String × ExclusionType)
  excludeWeekends : Bool
  excludeBankHolidays : Bool
  holidayLeaveDays : List String

/-- First day of the viewed month: `new Date(y, m, 1)`. -/
def monthStart (s : TrackerState) : CalDate := jsDate s.viewYear s.viewMonthIdx 1

/-- Last day of the viewed month: `new Date(y, m + 1, 0)`. -/
def monthEnd (s : TrackerState) : CalDate := jsDate s.viewYear (s.viewMonthIdx + 1) 0

/-- The `allDays` list of the source `calc`: every date of the viewed
month. -/
def monthDays (s : TrackerState) : List CalDate :=
  getDaysInRange (monthStart s) (monthEnd s)

/-- Per-day branch of the working-day-pool loop in source `calc`, in the
source's test order: auto-excluded weekend, auto-excluded bank holiday,
manual exclusion entry, booked leave day, else working. -/
def classifyDay (s : TrackerState) (dt : CalDate) : PoolClass :=
  let ds := formatDate dt
  if isWeekend dt && s.excludeWeekends then .weekend
  else if isBankHoliday ds && s.excludeBankHolidays then .bankHoliday
  else if hasKey s.excludedDays ds then .manualExcluded
  else if s.holidayLeaveDays.contains ds then .holidayLeave
  else .working

/-- Source `Math.ceil(workingDays * reqValue / 100)` on naturals: the
ceiling of `w * pct / 100`. -/
def requiredOfficeDays (w pct : Nat) : Nat := (w * pct + 99) / 100

/-- Source progress percentage:
`min(100, Math.round((selected / required) * 100))` for positive `required`,
else 100.  `Math.round` rounds half away from zero, i.e. half up here;
`(200 * s + r) / (2 * r)` is the integer form of `floor(100 * s / r + 1/2)`. -/
def progressPercentage (selected required : Nat) : Nat :=
  if 0 < required then min 100 ((200 * selected + required) / (2 * required))
  else 100

/-- Source compliance status chain; `selected >= required * 0.75` is exact
in doubles on the reachable domain and equals `4 * selected ≥ 3 * required`. -/
def complianceStatus (selected required : Nat) : ComplianceStatus :=
  if required ≤ selected then .onTrack
  else if 3 * required ≤ 4 * selected then .atRisk
  else .notMeeting

/-- Result record of the source `calc` memo. -/
structure CalcResult where
  rangeStartStr : String
  rangeEndStr : String
  totalDays : Nat
  weekendCount : Nat
  bankHolidayCount : Nat
  manualExcludedCount : Nat
  holidayLeaveCount : Nat
  totalExcluded : Nat
  workingDayKeys : List String
  workingDays : Nat
  requiredOfficeDays : Nat
  selectedOfficeDays : Nat
  progressPercentage : Nat
  complianceStatus : ComplianceStatus
deriving Repr

/-- The source `calc` memo.  The single for-loop with `continue`s is
rendered as one filter per branch; `workingDaySet` is the key list of the
days on which no branch fired (its elements are pairwise distinct, see
`workingDayKeys_nodup`, so its length is the JS `Set` size), and
`selectedOfficeDays` counts the office-marked keys inside it. -/
def officeCalc (s : TrackerState) : CalcResult :=
  let allDays := monthDays s
  let workingDayKeys :=
    (allDays.filter (fun d => classifyDay s d == .working)).map formatDate
  let workingDays := workingDayKeys.length
  let required := requiredOfficeDays workingDays s.reqValue
  let selected := (s.officeDays.filter (fun k => k ∈ workingDayKeys)).card
  { rangeStartStr := formatDate (monthStart s)
    rangeEndStr := formatDate (monthEnd s)
    totalDays := allDays.length
    weekendCount := (allDays.filter (fun d => classifyDay s d == .weekend)).length
    bankHolidayCount := (allDays.filter (fun d => classifyDay s d == .bankHoliday)).length
    manualExcludedCount := (allDays.filter (fun d => classifyDay s d == .manualExcluded)).length
    holidayLeaveCount := (allDays.filter (fun d => classifyDay s d == .holidayLeave)).length
    totalExcluded := (allDays.filter (fun d => classifyDay s d != .working)).length
    workingDayKeys := workingDayKeys
    workingDays := workingDays
    requiredOfficeDays := required
    selectedOfficeDays := selected
    progressPercentage := progressPercentage selected required
    complianceStatus := complianceStatus selected required }

/-- Modelled from the spec: the three-state classification written with the
spec's rational threshold `required * 0.75`, for comparison with the
source-derived `complianceStatus`. -/
def complianceStatusSpec (selected required : Nat) : ComplianceStatus :=
  if (required : ℚ) ≤ (selected : ℚ) then .onTrack
  else if (required : ℚ) * (3 / 4) ≤ (selected : ℚ) then .atRisk
  else .notMeeting

/-- Source `handleDayTap`: a tap on a date with an exclusion entry clears
the entry; a tap on a date outside the working pool that is not office-marked
does nothing; otherwise the office mark toggles. -/
def handleDayTap (s : TrackerState) (dateStr : String) : TrackerState :=
  if hasKey s.excludedDays dateStr then
    { s with excludedDays := mapDelete s.excludedDays dateStr }
  else if ¬ dateStr ∈ (officeCalc s).workingDayKeys ∧ dateStr ∉ s.officeDays then s
  else if dateStr ∈ s.officeDays then
    { s with officeDays := s.officeDays.erase dateStr }
  else { s with officeDays := insert dateStr s.officeDays }

/-- Source `handleDayLongPress`: clears an existing exclusion entry, or adds
an `excluded` entry and removes the office mark. -/
def handleDayLongPress (s : TrackerState) (dateStr : String) : TrackerState :=
  if hasKey s.excludedDays dateStr then
    { s with excludedDays := mapDelete s.excludedDays dateStr }
  else
    { s with excludedDays := mapSet s.excludedDays dateStr .excluded,
             officeDays := s.officeDays.erase dateStr }

/-- Source `addExcludedDay`: adds an `excluded` entry and removes the office
mark in the same operation. -/
def addExcludedDay (s : TrackerState) (dateStr : String) : TrackerState :=
  { s with excludedDays := mapSet s.excludedDays dateStr .excluded,
           officeDays := s.officeDays.erase dateStr }

/-- Source `removeExcludedDay`: drops the exclusion entry only. -/
def removeExcludedDay (s : TrackerState) (dateStr : String) : TrackerState :=
  { s with excludedDays := mapDelete s.excludedDays dateStr }

/-- JS string comparison (the `<=` of `isTodayInView`) on DateKey strings:
lexicographic over the character lists.  This agrees with the ambient
`String` order, see `strLe_iff_le`. -/
def strLe (a b : String) : Prop := ¬ List.Lex (· < ·) b.data a.data

instance (a b : String) : Decidable (strLe a b) := by
  unfold strLe; infer_instance

/-- Source `handleMarkToday`: when today lies in the viewed range (string
comparison against the range bounds), the office mark on today toggles.  No
exclusion-map check is performed. -/
def handleMarkToday (s : TrackerState) (today : String) : TrackerState :=
  if strLe (officeCalc s).rangeStartStr today ∧ strLe today (officeCalc s).rangeEndStr then
    if today ∈ s.officeDays then { s with officeDays := s.officeDays.erase today }
    else { s with officeDays := insert today s.officeDays }
  else s

/-- Shape of a stored officeTracker document (all fields optional, as read
back from the store). -/
structure OfficeDoc where
  reqValue : Option Nat
  excludeWeekends : Option Bool
  excludeBankHolidays : Option Bool
  officeDays : Option (List String)
  excludedDays : Option (List (String × ExclusionType))

/-- Source load effect for a month: a present document overwrites the
settings it carries and replaces both day sets; an absent document
(`getDocument` returned null) clears the day selections and keeps the
current settings. -/
def applyLoad (s : TrackerState) (resp : Option OfficeDoc) : TrackerState :=
  match resp with
  | some data =>
    { s with
      reqValue := data.reqValue.getD s.reqValue
      excludeWeekends := data.excludeWeekends.getD s.excludeWeekends
      excludeBankHolidays := data.excludeBankHolidays.getD s.excludeBankHolidays
      officeDays := (data.officeDays.getD []).toFinset
      excludedDays := data.excludedDays.getD [] }
  | none => { s with officeDays := ∅, excludedDays := [] }

/-- Initial state of the OfficeTracker page for a viewed month: the
`useState` defaults (requirement 60, both auto-exclude toggles on, empty
day sets). -/
def defaultTrackerState (y mIdx : Nat) : TrackerState :=
  { viewYear := y
    viewMonthIdx := mIdx
    reqValue := 60
    officeDays := ∅
    excludedDays := []
    excludeWeekends := true
    excludeBankHolidays := true
    holidayLeaveDays := [] }

/-- Invariant of the spec's section 4.4: no date is simultaneously
office-marked and excluded. -/
def trackerInv (s : TrackerState) : Prop :=
  ∀ k, k ∈ s.officeDays → hasKey s.excludedDays k = false

/-! Lemmas: decimal rendering and lexicographic order on character lists.
The ambient order on `List Char` is `List.Lex` on the character order. -/

theorem natToCharsAux_irrel (f1 : Nat) :
    ∀ n, n < f1 → ∀ f2, n < f2 → natToCharsAux f1 n = natToCharsAux f2 n := by
  induction f1 with
  | zero => intro n h; omega
  | succ f ih =>
    intro n h f2 h2
    cases f2 with
    | zero => omega
    | succ f2 =>
      simp only [natToCharsAux]
      by_cases h10 : n < 10
      · simp [h10]
      · have hd : n / 10 < n := Nat.div_lt_self (by omega) (by omega)
        simp only [if_neg h10]
        rw [ih (n / 10) (by omega) f2 (by omega)]

theorem natToChars_eq (n : Nat) :
    natToChars n = if n < 10 then [Nat.digitChar n]
      else natToChars (n / 10) ++ [Nat.digitChar (n % 10)] := by
  by_cases h10 : n < 10
  · simp only [natToChars, natToCharsAux, if_pos h10]
  · have hd : n / 10 < n := Nat.div_lt_self (by omega) (by omega)
    show natToCharsAux (n + 1) n = _
    simp only [natToCharsAux, if_neg h10]
    rw [natToCharsAux_irrel n (n / 10) (by omega) (n / 10 + 1) (by omega)]
    rfl

theorem natToChars_length_pos (n : Nat) : 0 < (natToChars n).length := by
  rw [natToChars_eq]; split <;> simp

theorem natToChars_length (n : Nat) :
    (natToChars n).length =
      if n < 10 then 1 else (natToChars (n / 10)).length + 1 := by
  rw [natToChars_eq]; split <;> simp

theorem digitChar_lt_iff :
    ∀ a < 10, ∀ b < 10, (Nat.digitChar a < Nat.digitChar b ↔ a < b) := by decide

theorem digitChar_inj :
    ∀ a < 10, ∀ b < 10, Nat.digitChar a = Nat.digitChar b → a = b := by decide

theorem digitChar_ne_dash : ∀ a < 10, Nat.digitChar a ≠ '-' := by decide

theorem digitChar_toNat : ∀ a < 10, (Nat.digitChar a).toNat = 48 + a := by decide

theorem natToChars_ne_dash (n : Nat) : '-' ∉ natToChars n := by
  induction n using Nat.strong_induction_on with
  | _ n ih =>
    rw [natToChars_eq]
    split
    · next h => simp; exact fun he => digitChar_ne_dash n h he.symm
    · next h =>
      have hd : n / 10 < n := Nat.div_lt_self (by omega) (by omega)
      simp only [List.mem_append, List.mem_singleton]
      rintro (hm | hm)
      · exact ih (n / 10) hd hm
      · exact digitChar_ne_dash (n % 10) (by omega) hm.symm

theorem list_nil_not_lt_nil : ¬ (([] : List Char) < []) :=
  List.Lex.not_nil_right _ _

theorem list_lt_cons_iff {a b : Char} {l1 l2 : List Char} :
    (a :: l1) < (b :: l2) ↔ a < b ∨ (a = b ∧ l1 < l2) := by
  constructor
  · intro h
    cases h with
    | cons h => exact Or.inr ⟨rfl, h⟩
    | rel h => exact Or.inl h
  · rintro (h | ⟨rfl, h⟩)
    · exact List.Lex.rel h
    · exact List.Lex.cons h

theorem list_lt_append_iff (a : List Char) :
    ∀ (b c d : List Char), a.length = b.length →
      ((a ++ c) < (b ++ d) ↔ a < b ∨ (a = b ∧ c < d)) := by
  induction a with
  | nil =>
    intro b c d h
    cases b with
    | nil =>
      simp only [List.nil_append, eq_self_iff_true, true_and]
      constructor
      · intro h'; exact Or.inr h'
      · rintro (h' | h')
        · exact absurd h' list_nil_not_lt_nil
        · exact h'
    | cons y ys => simp at h
  | cons x xs ih =>
    intro b c d h
    cases b with
    | nil => simp at h
    | cons y ys =>
      simp only [List.cons_append]
      rw [list_lt_cons_iff, ih ys c d (by simpa using h), list_lt_cons_iff]
      constructor
      · rintro (h' | ⟨rfl, h' | ⟨rfl, h'⟩⟩)
        · exact Or.inl (Or.inl h')
        · exact Or.inl (Or.inr ⟨rfl, h'⟩)
        · exact Or.inr ⟨rfl, h'⟩
      · rintro ((h' | ⟨rfl, h'⟩) | ⟨he, h'⟩)
        · exact Or.inl h'
        · exact Or.inr ⟨rfl, Or.inl h'⟩
        · obtain ⟨rfl, rfl⟩ := List.cons.inj he
          exact Or.inr ⟨rfl, Or.inr ⟨rfl, h'⟩⟩

theorem natToChars_inj : ∀ n m, natToChars n = natToChars m → n = m := by
  intro n
  induction n using Nat.strong_induction_on with
  | _ n ih =>
    intro m h
    rw [natToChars_eq n, natToChars_eq m] at h
    by_cases hn : n < 10 <;> by_cases hm : m < 10
    · simp only [if_pos hn, if_pos hm, List.cons.injEq] at h
      exact digitChar_inj n hn m hm h.1
    · exfalso
      simp only [if_pos hn, if_neg hm] at h
      have hl := congrArg List.length h
      simp only [List.length_singleton, List.length_append, List.length_cons,
        List.length_nil] at hl
      have := natToChars_length_pos (m / 10)
      omega
    · exfalso
      simp only [if_neg hn, if_pos hm] at h
      have hl := congrArg List.length h
      simp only [List.length_singleton, List.length_append, List.length_cons,
        List.length_nil] at hl
      have := natToChars_length_pos (n / 10)
      omega
    · simp only [if_neg hn, if_neg hm] at h
      obtain ⟨h1, h2⟩ := List.append_inj' h (by simp)
      have hd : n / 10 < n := Nat.div_lt_self (by omega) (by omega)
      have e1 : n / 10 = m / 10 := ih (n / 10) hd (m / 10) h1
      simp only [List.cons.injEq] at h2
      have e2 : n % 10 = m % 10 :=
        digitChar_inj (n % 10) (by omega) (m % 10) (by omega) h2.1
      omega

theorem natToChars_lt_iff :
    ∀ n m, (natToChars n).length = (natToChars m).length →
      (natToChars n < natToChars m ↔ n < m) := by
  intro n
  induction n using Nat.strong_induction_on with
  | _ n ih =>
    intro m hlen
    by_cases hn : n < 10 <;> by_cases hm : m < 10
    · rw [natToChars_eq n, natToChars_eq m]
      simp only [if_pos hn, if_pos hm]
      rw [list_lt_cons_iff]
      constructor
      · rintro (h | ⟨-, h⟩)
        · exact (digitChar_lt_iff n hn m hm).mp h
        · exact absurd h list_nil_not_lt_nil
      · intro h
        exact Or.inl ((digitChar_lt_iff n hn m hm).mpr h)
    · exfalso
      rw [natToChars_length n, natToChars_length m] at hlen
      simp only [if_pos hn, if_neg hm] at hlen
      have := natToChars_length_pos (m / 10)
      omega
    · exfalso
      rw [natToChars_length n, natToChars_length m] at hlen
      simp only [if_neg hn, if_pos hm] at hlen
      have := natToChars_length_pos (n / 10)
      omega
    · have hleq : (natToChars (n / 10)).length = (natToChars (m / 10)).length := by
        rw [natToChars_length n, natToChars_length m] at hlen
        simp only [if_neg hn, if_neg hm] at hlen
        omega
      rw [natToChars_eq n, natToChars_eq m]
      simp only [if_neg hn, if_neg hm]
      rw [list_lt_append_iff _ _ _ _ hleq]
      have hd : n / 10 < n := Nat.div_lt_self (by omega) (by omega)
      rw [ih (n / 10) hd (m / 10) hleq, list_lt_cons_iff]
      constructor
      · rintro (h | ⟨he, h | ⟨-, h⟩⟩)
        · have h10 := Nat.div_add_mod n 10
          have h10' := Nat.div_add_mod m 10
          omega
        · have he' : n / 10 = m / 10 := natToChars_inj _ _ he
          have h' := (digitChar_lt_iff (n % 10) (by omega) (m % 10) (by omega)).mp h
          omega
        · exact absurd h list_nil_not_lt_nil
      · intro h
        by_cases hq : n / 10 < m / 10
        · exact Or.inl hq
        · have hq' : n / 10 = m / 10 := by
            have h10 := Nat.div_add_mod n 10
            have h10' := Nat.div_add_mod m 10
            omega
          refine Or.inr ⟨by rw [hq'], Or.inl ?_⟩
          refine (digitChar_lt_iff (n % 10) (by omega) (m % 10) (by omega)).mpr ?_
          omega

theorem natToChars_len_four {n : Nat} (h1 : 1000 ≤ n) (h2 : n ≤ 9999) :
    (natToChars n).length = 4 := by
  have e1 : (natToChars (n / 1000)).length = 1 := by
    rw [natToChars_length]; simp only [if_pos (show n / 1000 < 10 by omega)]
  have d21 : n / 100 / 10 = n / 1000 := by omega
  have e2 : (natToChars (n / 100)).length = 2 := by
    rw [natToChars_length]
    simp only [if_neg (show ¬ n / 100 < 10 by omega), d21, e1]
  have d32 : n / 10 / 10 = n / 100 := by omega
  have e3 : (natToChars (n / 10)).length = 3 := by
    rw [natToChars_length]
    simp only [if_neg (show ¬ n / 10 < 10 by omega), d32, e2]
  rw [natToChars_length]
  simp only [if_neg (show ¬ n < 10 by omega), e3]

theorem pad2_length : ∀ n < 100, (pad2 n).length = 2 := by decide

theorem pad2_lt_iff : ∀ a < 32, ∀ b < 32, (pad2 a < pad2 b ↔ a < b) := by decide

theorem pad2_inj : ∀ a < 32, ∀ b < 32, pad2 a = pad2 b → a = b := by decide

theorem pad2_ne_dash : ∀ n < 100, '-' ∉ pad2 n := by decide

/-! Lemmas: calendar arithmetic. -/

theorem daysInMonth_pos (y m : Nat) : 28 ≤ daysInMonth y m := by
  unfold daysInMonth; split_ifs <;> omega

theorem daysBeforeMonth_succ (y m : Nat) (h : 1 ≤ m) :
    daysBeforeMonth y (m + 1) = daysBeforeMonth y m + daysInMonth y m := by
  simp [daysBeforeMonth, h]

theorem daysBeforeMonth_mono (y : Nat) {m1 m2 : Nat} (h : m1 ≤ m2) :
    daysBeforeMonth y m1 ≤ daysBeforeMonth y m2 := by
  induction m2 with
  | zero => have : m1 = 0 := by omega
            simp [this]
  | succ k ih =>
    rcases Nat.lt_or_ge m1 (k + 1) with hk | hk
    · refine le_trans (ih (by omega)) ?_
      show daysBeforeMonth y k ≤ daysBeforeMonth y (k + 1)
      simp only [daysBeforeMonth]
      omega
    · have : m1 = k + 1 := by omega
      simp [this]

theorem daysBeforeMonth_13 (y : Nat) : daysBeforeMonth y 13 = daysInYear y := by
  cases h : isLeapYear y <;>
    simp [daysBeforeMonth, daysInMonth, daysInYear, h]

theorem isLeapYear_iff (y : Nat) :
    isLeapYear y = true ↔ ((y % 4 = 0 ∧ y % 100 ≠ 0) ∨ y % 400 = 0) := by
  simp [isLeapYear]

theorem numLeapsBelow_succ (y : Nat) :
    numLeapsBelow (y + 1) = numLeapsBelow y + (if isLeapYear y then 1 else 0) := by
  unfold numLeapsBelow
  split_ifs with h
  · rw [isLeapYear_iff] at h
    omega
  · rw [isLeapYear_iff] at h
    omega

theorem daysBeforeYear_succ (y : Nat) :
    daysBeforeYear (y + 1) = daysBeforeYear y + daysInYear y := by
  simp only [daysBeforeYear, numLeapsBelow_succ, daysInYear]
  split_ifs <;> omega

theorem numLeapsBelow_mono {y1 y2 : Nat} (h : y1 ≤ y2) :
    numLeapsBelow y1 ≤ numLeapsBelow y2 := by
  unfold numLeapsBelow
  omega

theorem daysBeforeYear_mono {y1 y2 : Nat} (h : y1 ≤ y2) :
    daysBeforeYear y1 ≤ daysBeforeYear y2 := by
  have := numLeapsBelow_mono h
  simp only [daysBeforeYear]
  omega

theorem dayInYear_lt {y m d : Nat} (h1 : 1 ≤ m) (h2 : m ≤ 12) (h3 : 1 ≤ d)
    (h4 : d ≤ daysInMonth y m) :
    daysBeforeMonth y m + (d - 1) < daysInYear y := by
  have hs : daysBeforeMonth y (m + 1) = daysBeforeMonth y m + daysInMonth y m :=
    daysBeforeMonth_succ y m h1
  have hm : daysBeforeMonth y (m + 1) ≤ daysBeforeMonth y 13 :=
    daysBeforeMonth_mono y (by omega)
  rw [daysBeforeMonth_13] at hm
  omega

theorem validDate_nextDay {dt : CalDate} (h : validDate dt = true) :
    validDate (nextDay dt) = true := by
  obtain ⟨y, m, d⟩ := dt
  simp only [validDate, decide_eq_true_eq] at h ⊢
  obtain ⟨h1, h2, h3, h4⟩ := h
  unfold nextDay
  dsimp only at h1 h2 h3 h4 ⊢
  split_ifs with hd hm
  · show 1 ≤ m ∧ m ≤ 12 ∧ 1 ≤ d + 1 ∧ d + 1 ≤ daysInMonth y m
    omega
  · show 1 ≤ m + 1 ∧ m + 1 ≤ 12 ∧ 1 ≤ 1 ∧ 1 ≤ daysInMonth y (m + 1)
    have := daysInMonth_pos y (m + 1)
    omega
  · show 1 ≤ 1 ∧ 1 ≤ 12 ∧ 1 ≤ 1 ∧ 1 ≤ daysInMonth (y + 1) 1
    have := daysInMonth_pos (y + 1) 1
    omega

theorem dayNumber_nextDay {dt : CalDate} (h : validDate dt = true) :
    dayNumber (nextDay dt) = dayNumber dt + 1 := by
  obtain ⟨y, m, d⟩ := dt
  simp only [validDate, decide_eq_true_eq] at h
  obtain ⟨h1, h2, h3, h4⟩ := h
  unfold nextDay dayNumber
  dsimp only
  split_ifs with hd hm
  · show daysBeforeYear y + daysBeforeMonth y m + (d + 1 - 1) =
      daysBeforeYear y + daysBeforeMonth y m + (d - 1) + 1
    omega
  · show daysBeforeYear y + daysBeforeMonth y (m + 1) + (1 - 1) =
      daysBeforeYear y + daysBeforeMonth y m + (d - 1) + 1
    rw [daysBeforeMonth_succ y m h1]
    omega
  · have hm12 : m = 12 := by omega
    subst hm12
    show daysBeforeYear (y + 1) + daysBeforeMonth (y + 1) 1 + (1 - 1) =
      daysBeforeYear y + daysBeforeMonth y 12 + (d - 1) + 1
    rw [daysBeforeYear_succ]
    have e13 : daysBeforeMonth y 13 = daysBeforeMonth y 12 + daysInMonth y 12 :=
      daysBeforeMonth_succ y 12 (by omega)
    rw [daysBeforeMonth_13] at e13
    have e1 : daysBeforeMonth (y + 1) 1 = 0 := by simp [daysBeforeMonth]
    omega

theorem dayNumber_lt_of_dateLex {d1 d2 : CalDate} (h1 : validDate d1 = true)
    (h2 : validDate d2 = true) (h : dateLex d1 d2) :
    dayNumber d1 < dayNumber d2 := by
  obtain ⟨y1, m1, dd1⟩ := d1
  obtain ⟨y2, m2, dd2⟩ := d2
  simp only [validDate, decide_eq_true_eq] at h1 h2
  obtain ⟨a1, a2, a3, a4⟩ := h1
  obtain ⟨b1, b2, b3, b4⟩ := h2
  unfold dateLex at h
  unfold dayNumber
  dsimp only at *
  rcases h with hy | ⟨rfl, hm | ⟨rfl, hd⟩⟩
  · have bd1 : daysBeforeMonth y1 m1 + (dd1 - 1) < daysInYear y1 :=
      dayInYear_lt a1 a2 a3 a4
    have bs : daysBeforeYear (y1 + 1) = daysBeforeYear y1 + daysInYear y1 :=
      daysBeforeYear_succ y1
    have bm : daysBeforeYear (y1 + 1) ≤ daysBeforeYear y2 :=
      daysBeforeYear_mono (by omega)
    omega
  · have hs : daysBeforeMonth y1 (m1 + 1) = daysBeforeMonth y1 m1 + daysInMonth y1 m1 :=
      daysBeforeMonth_succ y1 m1 a1
    have hmn : daysBeforeMonth y1 (m1 + 1) ≤ daysBeforeMonth y1 m2 :=
      daysBeforeMonth_mono y1 (by omega)
    omega
  · omega

theorem dayNumber_lt_iff {d1 d2 : CalDate} (h1 : validDate d1 = true)
    (h2 : validDate d2 = true) :
    dayNumber d1 < dayNumber d2 ↔ dateLex d1 d2 := by
  constructor
  · intro h
    by_contra hn
    have htri : d1 = d2 ∨ dateLex d2 d1 := by
      obtain ⟨y1, m1, dd1⟩ := d1
      obtain ⟨y2, m2, dd2⟩ := d2
      simp only [dateLex, CalDate.mk.injEq] at hn ⊢
      omega
    rcases htri with rfl | hlex
    · omega
    · have := dayNumber_lt_of_dateLex h2 h1 hlex
      omega
  · exact dayNumber_lt_of_dateLex h1 h2

theorem dayNumber_inj {d1 d2 : CalDate} (h1 : validDate d1 = true)
    (h2 : validDate d2 = true) (h : dayNumber d1 = dayNumber d2) : d1 = d2 := by
  by_contra hn
  have htri : dateLex d1 d2 ∨ dateLex d2 d1 := by
    obtain ⟨y1, m1, dd1⟩ := d1
    obtain ⟨y2, m2, dd2⟩ := d2
    simp only [CalDate.mk.injEq] at hn
    simp only [dateLex]
    omega
  rcases htri with hl | hl
  · have := dayNumber_lt_of_dateLex h1 h2 hl; omega
  · have := dayNumber_lt_of_dateLex h2 h1 hl; omega

/-! Lemmas: day ranges. -/

theorem mem_rangeLoopFuel :
    ∀ (fuel : Nat) (cur last : CalDate), validDate cur = true →
      dayNumber last + 1 - dayNumber cur ≤ fuel →
      ∀ d, d ∈ rangeLoopFuel fuel cur last ↔
        (validDate d = true ∧ dayNumber cur ≤ dayNumber d ∧
          dayNumber d ≤ dayNumber last) := by
  intro fuel
  induction fuel with
  | zero =>
    intro cur last hv hf d
    simp only [rangeLoopFuel, List.not_mem_nil, false_iff]
    rintro ⟨-, h1, h2⟩
    omega
  | succ fuel ih =>
    intro cur last hv hf d
    simp only [rangeLoopFuel]
    split_ifs with hle
    · simp only [List.mem_cons]
      rw [ih (nextDay cur) last (validDate_nextDay hv)
        (by rw [dayNumber_nextDay hv]; omega)]
      constructor
      · rintro (rfl | ⟨hvd, hl, hr⟩)
        · exact ⟨hv, le_refl _, hle⟩
        · rw [dayNumber_nextDay hv] at hl
          exact ⟨hvd, by omega, hr⟩
      · rintro ⟨hvd, hl, hr⟩
        rcases Nat.eq_or_lt_of_le hl with he | hlt
        · exact Or.inl (dayNumber_inj hvd hv he.symm)
        · exact Or.inr ⟨hvd, by rw [dayNumber_nextDay hv]; omega, hr⟩
    · simp only [List.not_mem_nil, false_iff]
      rintro ⟨-, h1, h2⟩
      omega

theorem mem_getDaysInRange {start stop : CalDate} (hv : validDate start = true)
    (d : CalDate) :
    d ∈ getDaysInRange start stop ↔
      (validDate d = true ∧ dayNumber start ≤ dayNumber d ∧
        dayNumber d ≤ dayNumber stop) :=
  mem_rangeLoopFuel _ start stop hv (le_refl _) d

theorem rangeLoopFuel_le_of_mem :
    ∀ (fuel : Nat) (cur last d : CalDate), validDate cur = true →
      d ∈ rangeLoopFuel fuel cur last → dayNumber cur ≤ dayNumber d := by
  intro fuel
  induction fuel with
  | zero => intro cur last d hv h; simp [rangeLoopFuel] at h
  | succ fuel ih =>
    intro cur last d hv h
    simp only [rangeLoopFuel] at h
    split_ifs at h with hle
    · rcases List.mem_cons.mp h with rfl | hm
      · exact le_refl _
      · have := ih (nextDay cur) last d (validDate_nextDay hv) hm
        rw [dayNumber_nextDay hv] at this
        omega
    · simp at h

theorem rangeLoopFuel_pairwise :
    ∀ (fuel : Nat) (cur last : CalDate), validDate cur = true →
      (rangeLoopFuel fuel cur last).Pairwise
        (fun a b => dayNumber a < dayNumber b) := by
  intro fuel
  induction fuel with
  | zero => intro cur last hv; simp [rangeLoopFuel]
  | succ fuel ih =>
    intro cur last hv
    simp only [rangeLoopFuel]
    split_ifs with hle
    · refine List.Pairwise.cons ?_ (ih (nextDay cur) last (validDate_nextDay hv))
      intro b hb
      have := rangeLoopFuel_le_of_mem fuel (nextDay cur) last b
        (validDate_nextDay hv) hb
      rw [dayNumber_nextDay hv] at this
      omega
    · simp

theorem getDaysInRange_nodup {start stop : CalDate}
    (hv : validDate start = true) : (getDaysInRange start stop).Nodup := by
  refine List.Pairwise.imp ?_
    (rangeLoopFuel_pairwise _ start stop hv)
  intro a b h he
  subst he
  omega

/-! Lemmas: the JS date constructor on the shapes used by the grids. -/

theorem jsDate_one (y m : Nat) :
    jsDate y m 1 = ⟨y + m / 12, m % 12 + 1, 1⟩ := by
  simp [jsDate]

theorem jsDate_zero (y m : Nat) :
    jsDate y (m + 1) 0 =
      ⟨y + m / 12, m % 12 + 1, daysInMonth (y + m / 12) (m % 12 + 1)⟩ := by
  have h0 : ¬ (1 ≤ (0 : Int)) := by norm_num
  by_cases h11 : m % 12 = 11
  · have e1 : (m + 1) % 12 = 0 := by omega
    have e2 : (m + 1) / 12 = m / 12 + 1 := by omega
    have ey : y + (m / 12 + 1) - 1 = y + m / 12 := by omega
    have em : m % 12 + 1 = 12 := by omega
    simp only [jsDate, e1, e2, h0, if_false, if_pos rfl, ey, em]
    simp
  · have e1 : (m + 1) % 12 = m % 12 + 1 := by omega
    have e2 : (m + 1) / 12 = m / 12 := by omega
    have hne : ¬ (m % 12 + 1 = 0) := by omega
    simp only [jsDate, e1, e2, h0, if_false, if_neg hne]
    simp

theorem monthStart_eq (s : TrackerState) :
    monthStart s = ⟨s.viewYear + s.viewMonthIdx / 12, s.viewMonthIdx % 12 + 1, 1⟩ :=
  jsDate_one _ _

theorem monthEnd_eq (s : TrackerState) :
    monthEnd s = ⟨s.viewYear + s.viewMonthIdx / 12, s.viewMonthIdx % 12 + 1,
      daysInMonth (s.viewYear + s.viewMonthIdx / 12) (s.viewMonthIdx % 12 + 1)⟩ :=
  jsDate_zero _ _

theorem monthStart_valid (s : TrackerState) : validDate (monthStart s) = true := by
  rw [monthStart_eq]
  simp only [validDate, decide_eq_true_eq]
  have := daysInMonth_pos (s.viewYear + s.viewMonthIdx / 12) (s.viewMonthIdx % 12 + 1)
  refine ⟨by omega, by omega, by omega, by omega⟩

theorem monthEnd_valid (s : TrackerState) : validDate (monthEnd s) = true := by
  rw [monthEnd_eq]
  simp only [validDate, decide_eq_true_eq]
  have := daysInMonth_pos (s.viewYear + s.viewMonthIdx / 12) (s.viewMonthIdx % 12 + 1)
  refine ⟨by omega, by omega, by omega, by omega⟩

theorem dateLex_mk_iff {y1 m1 d1 y2 m2 d2 : Nat} :
    dateLex ⟨y1, m1, d1⟩ ⟨y2, m2, d2⟩ ↔
      (y1 < y2 ∨ (y1 = y2 ∧ (m1 < m2 ∨ (m1 = m2 ∧ d1 < d2)))) := Iff.rfl

theorem validDate_mk_iff {y m d : Nat} :
    validDate ⟨y, m, d⟩ = true ↔
      (1 ≤ m ∧ m ≤ 12 ∧ 1 ≤ d ∧ d ≤ daysInMonth y m) := by
  simp [validDate]

theorem mem_monthDays {s : TrackerState} (dt : CalDate) :
    dt ∈ monthDays s ↔
      (validDate dt = true ∧ dt.year = s.viewYear + s.viewMonthIdx / 12 ∧
        dt.month = s.viewMonthIdx % 12 + 1) := by
  rw [monthDays, mem_getDaysInRange (monthStart_valid s)]
  have hvs := monthStart_valid s
  have hve := monthEnd_valid s
  obtain ⟨dy, dm, dd⟩ := dt
  constructor
  · rintro ⟨hv, h1, h2⟩
    refine ⟨hv, ?_⟩
    have hl : ¬ dateLex ⟨dy, dm, dd⟩ (monthStart s) := by
      intro hlex
      have := dayNumber_lt_of_dateLex hv hvs hlex
      omega
    have hr : ¬ dateLex (monthEnd s) ⟨dy, dm, dd⟩ := by
      intro hlex
      have := dayNumber_lt_of_dateLex hve hv hlex
      omega
    rw [monthStart_eq, dateLex_mk_iff] at hl
    rw [monthEnd_eq, dateLex_mk_iff] at hr
    rw [validDate_mk_iff] at hv
    constructor
    · show dy = s.viewYear + s.viewMonthIdx / 12
      omega
    · show dm = s.viewMonthIdx % 12 + 1
      omega
  · rintro ⟨hv, hy, hm⟩
    dsimp only at hy hm
    subst hy
    subst hm
    refine ⟨hv, ?_, ?_⟩
    · rw [← not_lt, dayNumber_lt_iff hv hvs, monthStart_eq, dateLex_mk_iff]
      rw [validDate_mk_iff] at hv
      omega
    · rw [← not_lt, dayNumber_lt_iff hve hv, monthEnd_eq, dateLex_mk_iff]
      rw [validDate_mk_iff] at hv
      omega

theorem monthDays_nodup (s : TrackerState) : (monthDays s).Nodup :=
  getDaysInRange_nodup (monthStart_valid s)

/-! Lemmas: formatting and parsing date keys. -/

theorem formatDate_data (dt : CalDate) :
    (formatDate dt).data =
      natToChars dt.year ++ '-' :: (pad2 dt.month ++ '-' :: pad2 dt.day) := rfl

theorem formatDate_inj_same_month {d1 d2 : CalDate} (hy : d1.year = d2.year)
    (hm : d1.month = d2.month) (h1 : d1.day < 32) (h2 : d2.day < 32)
    (h : formatDate d1 = formatDate d2) : d1 = d2 := by
  obtain ⟨y1, m1, dd1⟩ := d1
  obtain ⟨y2, m2, dd2⟩ := d2
  dsimp only at hy hm h1 h2
  subst hy
  subst hm
  have hd := congrArg String.data h
  rw [formatDate_data, formatDate_data] at hd
  have hd2 := List.append_cancel_left hd
  have hd3 := (List.cons.inj hd2).2
  have hd4 := List.append_cancel_left hd3
  have hd5 := (List.cons.inj hd4).2
  have := pad2_inj dd1 h1 dd2 h2 hd5
  simp [this]

theorem takeWhile_append_dash (a r : List Char) (ha : '-' ∉ a) :
    (a ++ '-' :: r).takeWhile (fun c => c != '-') = a := by
  induction a with
  | nil => simp [List.takeWhile]
  | cons x xs ih =>
    simp only [List.mem_cons, not_or] at ha
    simp only [List.cons_append, List.takeWhile]
    have : (x != '-') = true := by
      simp only [bne_iff_ne, ne_eq]
      exact fun h => ha.1 h.symm
    rw [this]
    simp only [List.cons.injEq, true_and]
    exact ih ha.2

theorem dropWhile_append_dash (a r : List Char) (ha : '-' ∉ a) :
    (a ++ '-' :: r).dropWhile (fun c => c != '-') = '-' :: r := by
  induction a with
  | nil => simp [List.dropWhile]
  | cons x xs ih =>
    simp only [List.mem_cons, not_or] at ha
    simp only [List.cons_append, List.dropWhile]
    have : (x != '-') = true := by
      simp only [bne_iff_ne, ne_eq]
      exact fun h => ha.1 h.symm
    rw [this]
    exact ih ha.2

theorem parseDigits_cons_zero (l : List Char) :
    parseDigits ('0' :: l) = parseDigits l := by
  simp [parseDigits, List.foldl_cons]

theorem parseDigits_append_digit (l : List Char) (c : Char) :
    parseDigits (l ++ [c]) = 10 * parseDigits l + (c.toNat - 48) := by
  simp [parseDigits, List.foldl_append]

theorem parseDigits_natToChars (n : Nat) : parseDigits (natToChars n) = n := by
  induction n using Nat.strong_induction_on with
  | _ n ih =>
    rw [natToChars_eq]
    split
    · next h =>
      have hc := digitChar_toNat n h
      simp [parseDigits, hc]
    · next h =>
      have hd : n / 10 < n := Nat.div_lt_self (by omega) (by omega)
      rw [parseDigits_append_digit, ih (n / 10) hd,
        digitChar_toNat (n % 10) (by omega)]
      omega

theorem parseDigits_pad2 (n : Nat) : parseDigits (pad2 n) = n := by
  unfold pad2
  split
  · rw [parseDigits_cons_zero, parseDigits_natToChars]
  · rw [parseDigits_natToChars]

theorem parseDate_formatDate {dt : CalDate} (hv : validDate dt = true)
    (hy : 100 ≤ dt.year) : parseDate (formatDate dt) = dt := by
  obtain ⟨y, m, d⟩ := dt
  rw [validDate_mk_iff] at hv
  dsimp only at hy
  have hm32 : m < 100 := by omega
  have hd32 : d < 100 := by
    have := daysInMonth_pos y m
    unfold daysInMonth at hv
    split_ifs at hv <;> omega
  unfold parseDate
  dsimp only
  simp only [formatDate_data]
  rw [takeWhile_append_dash _ _ (natToChars_ne_dash y),
    dropWhile_append_dash _ _ (natToChars_ne_dash y)]
  simp only [List.drop_succ_cons, List.drop_zero]
  rw [takeWhile_append_dash _ _ (pad2_ne_dash m hm32),
    dropWhile_append_dash _ _ (pad2_ne_dash m hm32)]
  simp only [List.drop_succ_cons, List.drop_zero]
  rw [parseDigits_natToChars, parseDigits_pad2, parseDigits_pad2]
  rw [if_neg (by omega)]

theorem daysInMonth_le (y m : Nat) : daysInMonth y m ≤ 31 := by
  unfold daysInMonth; split_ifs <;> omega

theorem list_lt_cons_same {c : Char} {l1 l2 : List Char} :
    (c :: l1) < (c :: l2) ↔ l1 < l2 := by
  rw [list_lt_cons_iff]
  simp [lt_irrefl]

theorem formatDate_lt_iff {d1 d2 : CalDate} (hv1 : validDate d1 = true)
    (hv2 : validDate d2 = true) (ha1 : 1000 ≤ d1.year) (ha2 : d1.year ≤ 9999)
    (hb1 : 1000 ≤ d2.year) (hb2 : d2.year ≤ 9999) :
    formatDate d1 < formatDate d2 ↔ dateLex d1 d2 := by
  obtain ⟨y1, m1, dd1⟩ := d1
  obtain ⟨y2, m2, dd2⟩ := d2
  rw [validDate_mk_iff] at hv1 hv2
  dsimp only at ha1 ha2 hb1 hb2
  have hm1 : m1 < 32 := by omega
  have hm2 : m2 < 32 := by omega
  have hd1 : dd1 < 32 := by
    have := daysInMonth_le y1 m1; omega
  have hd2 : dd2 < 32 := by
    have := daysInMonth_le y2 m2; omega
  rw [String.lt_iff_toList_lt]
  show (formatDate ⟨y1, m1, dd1⟩).data < (formatDate ⟨y2, m2, dd2⟩).data ↔ _
  rw [formatDate_data, formatDate_data]
  dsimp only
  have hylen : (natToChars y1).length = (natToChars y2).length := by
    rw [natToChars_len_four ha1 ha2, natToChars_len_four hb1 hb2]
  rw [list_lt_append_iff _ _ _ _ hylen, natToChars_lt_iff _ _ hylen,
    list_lt_cons_same,
    list_lt_append_iff _ _ _ _
      (by rw [pad2_length m1 (by omega), pad2_length m2 (by omega)]),
    pad2_lt_iff m1 hm1 m2 hm2, list_lt_cons_same,
    pad2_lt_iff dd1 hd1 dd2 hd2]
  have ey : natToChars y1 = natToChars y2 ↔ y1 = y2 :=
    ⟨natToChars_inj _ _, fun h => by rw [h]⟩
  have em : pad2 m1 = pad2 m2 ↔ m1 = m2 :=
    ⟨pad2_inj m1 hm1 m2 hm2, fun h => by rw [h]⟩
  rw [ey, em, dateLex_mk_iff]

/-! Lemmas: the compliance calculator. -/

theorem officeCalc_workingDayKeys (s : TrackerState) :
    (officeCalc s).workingDayKeys =
      ((monthDays s).filter (fun d => classifyDay s d == .working)).map formatDate := rfl

theorem officeCalc_workingDays (s : TrackerState) :
    (officeCalc s).workingDays = (officeCalc s).workingDayKeys.length := rfl

theorem officeCalc_requiredOfficeDays (s : TrackerState) :
    (officeCalc s).requiredOfficeDays =
      requiredOfficeDays (officeCalc s).workingDays s.reqValue := rfl

theorem officeCalc_selectedOfficeDays (s : TrackerState) :
    (officeCalc s).selectedOfficeDays =
      (s.officeDays.filter (fun k => k ∈ (officeCalc s).workingDayKeys)).card := rfl

theorem officeCalc_progressPercentage (s : TrackerState) :
    (officeCalc s).progressPercentage =
      progressPercentage (officeCalc s).selectedOfficeDays
        (officeCalc s).requiredOfficeDays := rfl

theorem officeCalc_complianceStatus (s : TrackerState) :
    (officeCalc s).complianceStatus =
      complianceStatus (officeCalc s).selectedOfficeDays
        (officeCalc s).requiredOfficeDays := rfl

theorem officeCalc_rangeStartStr (s : TrackerState) :
    (officeCalc s).rangeStartStr = formatDate (monthStart s) := rfl

theorem officeCalc_rangeEndStr (s : TrackerState) :
    (officeCalc s).rangeEndStr = formatDate (monthEnd s) := rfl

theorem valid_day_lt {dt : CalDate} (hv : validDate dt = true) : dt.day < 32 := by
  obtain ⟨y, m, d⟩ := dt
  rw [validDate_mk_iff] at hv
  have := daysInMonth_le y m
  dsimp only
  omega

theorem classifyDay_working_iff (s : TrackerState) (dt : CalDate) :
    classifyDay s dt = .working ↔
      (¬(isWeekend dt = true ∧ s.excludeWeekends = true) ∧
       ¬(isBankHoliday (formatDate dt) = true ∧ s.excludeBankHolidays = true) ∧
       hasKey s.excludedDays (formatDate dt) = false ∧
       s.holidayLeaveDays.contains (formatDate dt) = false) := by
  unfold classifyDay
  cases hw : isWeekend dt <;> cases hew : s.excludeWeekends <;>
    cases hbh : isBankHoliday (formatDate dt) <;>
      cases hebh : s.excludeBankHolidays <;>
        cases hk : hasKey s.excludedDays (formatDate dt) <;>
          cases hl : s.holidayLeaveDays.contains (formatDate dt) <;>
            simp_all

theorem mem_workingDayKeys {s : TrackerState} {dt : CalDate}
    (hm : dt ∈ monthDays s) :
    formatDate dt ∈ (officeCalc s).workingDayKeys ↔
      classifyDay s dt = .working := by
  rw [officeCalc_workingDayKeys]
  simp only [List.mem_map, List.mem_filter, beq_iff_eq]
  constructor
  · rintro ⟨dt', ⟨hmem', hcls⟩, heq⟩
    obtain ⟨hv, hy, hmo⟩ := (mem_monthDays dt).mp hm
    obtain ⟨hv', hy', hmo'⟩ := (mem_monthDays dt').mp hmem'
    have : dt' = dt :=
      formatDate_inj_same_month (by rw [hy, hy']) (by rw [hmo, hmo'])
        (valid_day_lt hv') (valid_day_lt hv) heq
    rw [← this]
    exact hcls
  · intro h
    exact ⟨dt, ⟨hm, h⟩, rfl⟩

theorem workingDayKeys_nodup (s : TrackerState) :
    (officeCalc s).workingDayKeys.Nodup := by
  rw [officeCalc_workingDayKeys]
  refine List.Nodup.map_on ?_ ((monthDays_nodup s).filter _)
  intro a ha b hb heq
  rw [List.mem_filter] at ha hb
  obtain ⟨hva, hya, hma⟩ := (mem_monthDays a).mp ha.1
  obtain ⟨hvb, hyb, hmb⟩ := (mem_monthDays b).mp hb.1
  exact formatDate_inj_same_month (by rw [hya, hyb]) (by rw [hma, hmb])
    (valid_day_lt hva) (valid_day_lt hvb) heq

theorem classifyDay_priority (s : TrackerState) (dt : CalDate) :
    (isWeekend dt = true ∧ s.excludeWeekends = true →
      classifyDay s dt = .weekend) ∧
    (¬(isWeekend dt = true ∧ s.excludeWeekends = true) →
      isBankHoliday (formatDate dt) = true ∧ s.excludeBankHolidays = true →
      classifyDay s dt = .bankHoliday) ∧
    (¬(isWeekend dt = true ∧ s.excludeWeekends = true) →
      ¬(isBankHoliday (formatDate dt) = true ∧ s.excludeBankHolidays = true) →
      hasKey s.excludedDays (formatDate dt) = true →
      classifyDay s dt = .manualExcluded) ∧
    (¬(isWeekend dt = true ∧ s.excludeWeekends = true) →
      ¬(isBankHoliday (formatDate dt) = true ∧ s.excludeBankHolidays = true) →
      hasKey s.excludedDays (formatDate dt) = false →
      s.holidayLeaveDays.contains (formatDate dt) = true →
      classifyDay s dt = .holidayLeave) ∧
    (¬(isWeekend dt = true ∧ s.excludeWeekends = true) →
      ¬(isBankHoliday (formatDate dt) = true ∧ s.excludeBankHolidays = true) →
      hasKey s.excludedDays (formatDate dt) = false →
      s.holidayLeaveDays.contains (formatDate dt) = false →
      classifyDay s dt = .working) := by
  unfold classifyDay
  cases hw : isWeekend dt <;> cases hew : s.excludeWeekends <;>
    cases hbh : isBankHoliday (formatDate dt) <;>
      cases hebh : s.excludeBankHolidays <;>
        cases hk : hasKey s.excludedDays (formatDate dt) <;>
          cases hl : s.holidayLeaveDays.contains (formatDate dt) <;>
            simp_all

/-- C1: a date of the viewed month is in the working-day pool exactly when
none of the four exclusion tests fires, and the pool loop applies the tests
in priority order — automatic weekend exclusion first, then automatic
bank-holiday exclusion, then manual exclusion entries, then booked leave —
so an enabled automatic exclusion wins over a manual entry for the same
date. -/
theorem c1_working_day_pool_priority (s : TrackerState) (dt : CalDate)
    (hm : dt ∈ monthDays s) :
    (formatDate dt ∈ (officeCalc s).workingDayKeys ↔
      (¬(isWeekend dt = true ∧ s.excludeWeekends = true) ∧
       ¬(isBankHoliday (formatDate dt) = true ∧ s.excludeBankHolidays = true) ∧
       hasKey s.excludedDays (formatDate dt) = false ∧
       s.holidayLeaveDays.contains (formatDate dt) = false)) ∧
    (isWeekend dt = true ∧ s.excludeWeekends = true →
      classifyDay s dt = .weekend) ∧
    (¬(isWeekend dt = true ∧ s.excludeWeekends = true) →
      isBankHoliday (formatDate dt) = true ∧ s.excludeBankHolidays = true →
      classifyDay s dt = .bankHoliday) ∧
    (¬(isWeekend dt = true ∧ s.excludeWeekends = true) →
      ¬(isBankHoliday (formatDate dt) = true ∧ s.excludeBankHolidays = true) →
      hasKey s.excludedDays (formatDate dt) = true →
      classifyDay s dt = .manualExcluded) ∧
    (¬(isWeekend dt = true ∧ s.excludeWeekends = true) →
      ¬(isBankHoliday (formatDate dt) = true ∧ s.excludeBankHolidays = true) →
      hasKey s.excludedDays (formatDate dt) = false →
      s.holidayLeaveDays.contains (formatDate dt) = true →
      classifyDay s dt = .holidayLeave) ∧
    (¬(isWeekend dt = true ∧ s.excludeWeekends = true) →
      ¬(isBankHoliday (formatDate dt) = true ∧ s.excludeBankHolidays = true) →
      hasKey s.excludedDays (formatDate dt) = false →
      s.holidayLeaveDays.contains (formatDate dt) = false →
      classifyDay s dt = .working) := by
  refine ⟨(mem_workingDayKeys hm).trans (classifyDay_working_iff s dt), ?_⟩
  exact classifyDay_priority s dt

theorem c1_witness :
    formatDate (⟨2026, 2, 3⟩ : CalDate) ∈
      (officeCalc (defaultTrackerState 2026 1)).workingDayKeys :=
  ((c1_working_day_pool_priority (defaultTrackerState 2026 1) ⟨2026, 2, 3⟩
    (by decide)).1).mpr (by decide)

/-! Lemmas: exact integer forms of the calculator arithmetic. -/

theorem ceil_cast_div (a b : Nat) (hb : 0 < b) :
    Nat.ceil ((a : ℚ) / (b : ℚ)) = (a + b - 1) / b := by
  have hbq : (0 : ℚ) < (b : ℚ) := by exact_mod_cast hb
  apply le_antisymm
  · rw [Nat.ceil_le, div_le_iff₀' hbq]
    have hdm := Nat.div_add_mod (a + b - 1) b
    have hlt : (a + b - 1) % b < b := Nat.mod_lt _ hb
    have hnat : a ≤ b * ((a + b - 1) / b) := by omega
    exact_mod_cast hnat
  · have hle := Nat.le_ceil ((a : ℚ) / (b : ℚ))
    rw [div_le_iff₀' hbq] at hle
    have hnat : a ≤ b * Nat.ceil ((a : ℚ) / (b : ℚ)) := by exact_mod_cast hle
    rw [Nat.div_le_iff_le_mul_add_pred hb]
    omega

theorem round_half_up_eq (s r : Nat) (hr : 0 < r) :
    (200 * s + r) / (2 * r) = Nat.floor ((s : ℚ) / (r : ℚ) * 100 + 1 / 2) := by
  have hrq : ((r : ℚ)) ≠ 0 := by
    exact_mod_cast Nat.pos_iff_ne_zero.mp hr
  have he : (s : ℚ) / (r : ℚ) * 100 + 1 / 2 =
      ((200 * s + r : ℕ) : ℚ) / ((2 * r : ℕ) : ℚ) := by
    push_cast
    field_simp
    ring
  rw [he, Nat.floor_div_nat, Nat.floor_natCast]

/-- C2: the required office days of a month are the ceiling of
`workingDays * pct / 100`; the requirement is 0 at a 0 percentage, at least
1 for a positive percentage on a non-empty pool, and monotone
non-decreasing in the percentage. -/
theorem c2_required_office_days (s : TrackerState) (p1 p2 : Nat)
    (h12 : p1 ≤ p2) :
    ((officeCalc s).requiredOfficeDays =
      Nat.ceil ((((officeCalc s).workingDays * s.reqValue : Nat) : ℚ) / (100 : ℚ))) ∧
    (s.reqValue = 0 → (officeCalc s).requiredOfficeDays = 0) ∧
    (0 < s.reqValue → 0 < (officeCalc s).workingDays →
      1 ≤ (officeCalc s).requiredOfficeDays) ∧
    requiredOfficeDays (officeCalc s).workingDays p1 ≤
      requiredOfficeDays (officeCalc s).workingDays p2 := by
  rw [officeCalc_requiredOfficeDays]
  unfold requiredOfficeDays
  refine ⟨?_, ?_, ?_, ?_⟩
  · rw [show ((100 : ℚ)) = ((100 : ℕ) : ℚ) by norm_num,
      ceil_cast_div _ _ (by norm_num)]
    omega
  · intro h
    rw [h]
    simp
  · intro h1 h2
    have := Nat.mul_pos h2 h1
    omega
  · apply Nat.div_le_div_right
    have := Nat.mul_le_mul_left (officeCalc s).workingDays h12
    omega

theorem c2_witness :
    requiredOfficeDays (officeCalc (defaultTrackerState 2026 1)).workingDays 30 ≤
      requiredOfficeDays (officeCalc (defaultTrackerState 2026 1)).workingDays 60 :=
  (c2_required_office_days (defaultTrackerState 2026 1) 30 60 (by decide)).2.2.2

/-- C4: the compliance status is the three-state classification evaluated
in order with fixed threshold 0.75, agreeing with the spec's rational
formula, and in particular 8 selected of 12 required is below the 9-day
threshold and classifies as not-meeting. -/
theorem c4_compliance_status :
    (∀ sel req : Nat, complianceStatus sel req = complianceStatusSpec sel req) ∧
    complianceStatus 8 12 = ComplianceStatus.notMeeting ∧
    (∀ s : TrackerState, (officeCalc s).complianceStatus =
      complianceStatus (officeCalc s).selectedOfficeDays
        (officeCalc s).requiredOfficeDays) := by
  refine ⟨?_, by decide, fun s => officeCalc_complianceStatus s⟩
  intro sel req
  unfold complianceStatus complianceStatusSpec
  have h1 : ((req : ℚ) ≤ (sel : ℚ)) ↔ req ≤ sel := Nat.cast_le
  have h2 : ((req : ℚ) * (3 / 4) ≤ (sel : ℚ)) ↔ 3 * req ≤ 4 * sel := by
    rw [show (req : ℚ) * (3 / 4) = ((3 * req : ℕ) : ℚ) / 4 by push_cast; ring,
      div_le_iff₀ (by norm_num : (0 : ℚ) < 4),
      show (sel : ℚ) * 4 = ((4 * sel : ℕ) : ℚ) by push_cast; ring]
    exact Nat.cast_le
  exact if_congr h1.symm rfl (if_congr h2.symm rfl rfl)

/-- C5: the progress percentage is `min(100, round(selected / required * 100))`
for a positive requirement (rounding half up) and 100 for a zero
requirement; with a 0 percent requirement the month's required days are 0,
the progress is 100 and the status is on-track. -/
theorem c5_progress_percentage :
    (∀ sel req : Nat, progressPercentage sel req =
      (if req = 0 then 100
       else min 100 (Nat.floor ((sel : ℚ) / (req : ℚ) * 100 + 1 / 2)))) ∧
    (∀ s : TrackerState, s.reqValue = 0 →
      (officeCalc s).requiredOfficeDays = 0 ∧
      (officeCalc s).progressPercentage = 100 ∧
      (officeCalc s).complianceStatus = ComplianceStatus.onTrack) := by
  constructor
  · intro sel req
    unfold progressPercentage
    by_cases h : req = 0
    · simp [h]
    · have hp : 0 < req := by omega
      rw [if_pos hp, if_neg h, round_half_up_eq sel req hp]
  · intro s h
    have hreq : (officeCalc s).requiredOfficeDays = 0 := by
      rw [officeCalc_requiredOfficeDays]
      unfold requiredOfficeDays
      rw [h]
      simp
    refine ⟨hreq, ?_, ?_⟩
    · rw [officeCalc_progressPercentage, hreq]
      unfold progressPercentage
      simp
    · rw [officeCalc_complianceStatus, hreq]
      unfold complianceStatus
      simp

theorem c5_witness :
    (officeCalc { defaultTrackerState 2026 1 with reqValue := 0 }).requiredOfficeDays = 0 ∧
    (officeCalc { defaultTrackerState 2026 1 with reqValue := 0 }).progressPercentage = 100 ∧
    (officeCalc { defaultTrackerState 2026 1 with reqValue := 0 }).complianceStatus =
      ComplianceStatus.onTrack :=
  c5_progress_percentage.2 { defaultTrackerState 2026 1 with reqValue := 0 } rfl

theorem strLe_iff_le (a b : String) : strLe a b ↔ a ≤ b := by
  rw [String.le_iff_toList_le, ← not_lt]
  exact Iff.rfl

/-! Lemmas: the exclusion map and the mutation handlers. -/

theorem hasKey_iff (m : List (String × ExclusionType)) (k : String) :
    hasKey m k = true ↔ ∃ p ∈ m, p.1 = k := by
  simp [hasKey, List.any_eq_true, beq_iff_eq]

theorem bool_eq_of_iff {a b : Bool} (h : a = true ↔ b = true) : a = b := by
  cases a <;> cases b <;> simp_all

theorem hasKey_mapDelete_false {m : List (String × ExclusionType)}
    {k j : String} (h : hasKey m k = false) :
    hasKey (mapDelete m j) k = false := by
  cases hk : hasKey (mapDelete m j) k
  · rfl
  · exfalso
    rw [hasKey_iff] at hk
    obtain ⟨p, hp, hpk⟩ := hk
    unfold mapDelete at hp
    rw [List.mem_filter] at hp
    have : hasKey m k = true := (hasKey_iff m k).mpr ⟨p, hp.1, hpk⟩
    rw [h] at this
    cases this

theorem hasKey_mapSet_other {m : List (String × ExclusionType)}
    {k j : String} (v : ExclusionType) (h : j ≠ k) :
    hasKey (mapSet m k v) j = hasKey m j := by
  apply bool_eq_of_iff
  rw [hasKey_iff, hasKey_iff]
  unfold mapSet
  split_ifs with hex
  · constructor
    · rintro ⟨q, hq, hqj⟩
      rw [List.mem_map] at hq
      obtain ⟨p, hp, rfl⟩ := hq
      by_cases hpk : (p.1 == k) = true
      · rw [if_pos hpk] at hqj
        exact absurd (show j = k from hqj.symm) h
      · rw [if_neg hpk] at hqj
        exact ⟨p, hp, hqj⟩
    · rintro ⟨p, hp, hpj⟩
      refine ⟨p, ?_, ?_⟩
      · rw [List.mem_map]
        refine ⟨p, hp, ?_⟩
        rw [if_neg ?_]
        simp only [beq_iff_eq]
        rw [hpj]
        exact h
      · exact hpj
  · constructor
    · rintro ⟨p, hp, hpj⟩
      rw [List.mem_append] at hp
      rcases hp with hp | hp
      · exact ⟨p, hp, hpj⟩
      · simp only [List.mem_singleton] at hp
        subst hp
        exact absurd hpj (fun he => h he.symm)
    · rintro ⟨p, hp, hpj⟩
      exact ⟨p, List.mem_append_left _ hp, hpj⟩

/-- C3 (amended): the tap, long-press, add-exclusion and remove-exclusion
handlers all preserve the no-overlap invariant between the office-day set
and the exclusion map, and adding an exclusion removes the date from the
office-day set in the same operation; the mark-today handler preserves the
invariant only under the proviso that today has no exclusion entry. -/
theorem c3_mutations_preserve_invariant (s : TrackerState) (d td : String)
    (hInv : trackerInv s) :
    trackerInv (handleDayTap s d) ∧
    trackerInv (handleDayLongPress s d) ∧
    trackerInv (addExcludedDay s d) ∧
    trackerInv (removeExcludedDay s d) ∧
    (hasKey s.excludedDays td = false → trackerInv (handleMarkToday s td)) ∧
    d ∉ (addExcludedDay s d).officeDays := by
  have hAdd : trackerInv (addExcludedDay s d) := by
    intro k hk
    unfold addExcludedDay at hk ⊢
    dsimp only at hk ⊢
    rw [Finset.mem_erase] at hk
    rw [hasKey_mapSet_other _ hk.1]
    exact hInv k hk.2
  refine ⟨?_, ?_, hAdd, ?_, ?_, ?_⟩
  · unfold handleDayTap
    split_ifs with h1 h2 h3
    · intro k hk
      dsimp only at hk ⊢
      exact hasKey_mapDelete_false (hInv k hk)
    · exact hInv
    · intro k hk
      dsimp only at hk ⊢
      rw [Finset.mem_erase] at hk
      exact hInv k hk.2
    · intro k hk
      dsimp only at hk ⊢
      rw [Finset.mem_insert] at hk
      rcases hk with rfl | hk
      · simpa using h1
      · exact hInv k hk
  · unfold handleDayLongPress
    split_ifs with h1
    · intro k hk
      dsimp only at hk ⊢
      exact hasKey_mapDelete_false (hInv k hk)
    · intro k hk
      dsimp only at hk ⊢
      rw [Finset.mem_erase] at hk
      rw [hasKey_mapSet_other _ hk.1]
      exact hInv k hk.2
  · intro k hk
    unfold removeExcludedDay at hk ⊢
    dsimp only at hk ⊢
    exact hasKey_mapDelete_false (hInv k hk)
  · intro htd
    unfold handleMarkToday
    split_ifs with h1 h2
    · intro k hk
      dsimp only at hk ⊢
      rw [Finset.mem_erase] at hk
      exact hInv k hk.2
    · intro k hk
      dsimp only at hk ⊢
      rw [Finset.mem_insert] at hk
      rcases hk with rfl | hk
      · exact htd
      · exact hInv k hk
    · exact hInv
  · unfold addExcludedDay
    dsimp only
    exact Finset.not_mem_erase d _

theorem c3_witness :
    "2026-02-03" ∉
      (addExcludedDay (defaultTrackerState 2026 1) "2026-02-03").officeDays :=
  (c3_mutations_preserve_invariant (defaultTrackerState 2026 1)
    "2026-02-03" "2026-02-03" (fun k hk => by simp [defaultTrackerState] at hk)).2.2.2.2.2

theorem c3_counterexample :
    "2026-02-03" ∈ (handleMarkToday
      (addExcludedDay (defaultTrackerState 2026 1) "2026-02-03")
      "2026-02-03").officeDays ∧
    hasKey (handleMarkToday
      (addExcludedDay (defaultTrackerState 2026 1) "2026-02-03")
      "2026-02-03").excludedDays "2026-02-03" = true := by decide

/-- C6: the leave counter counts exactly the dates of the inclusive range
that are neither weekends nor bank holidays — manual office-tracker
exclusions are not an input of the function — and the range
2026-02-02..2026-02-06 consumes exactly 5 working days. -/
theorem c6_leave_working_day_counter (f t : CalDate)
    (hf : validDate f = true) (ht : validDate t = true)
    (hyf : 100 ≤ f.year) (hyt : 100 ≤ t.year) :
    countWorkingDays (formatDate f) (formatDate t) =
      ((getDaysInRange f t).filter
        (fun d => !(isWeekend d) && !(isBankHoliday (formatDate d)))).length ∧
    ((getDaysInRange f t).filter
      (fun d => !(isWeekend d) && !(isBankHoliday (formatDate d)))).Nodup ∧
    (∀ d, d ∈ (getDaysInRange f t).filter
        (fun d => !(isWeekend d) && !(isBankHoliday (formatDate d))) ↔
      (validDate d = true ∧ dayNumber f ≤ dayNumber d ∧
        dayNumber d ≤ dayNumber t ∧ isWeekend d = false ∧
        isBankHoliday (formatDate d) = false)) ∧
    countWorkingDays "2026-02-02" "2026-02-06" = 5 := by
  refine ⟨?_, ?_, ?_, by decide⟩
  · unfold countWorkingDays
    rw [parseDate_formatDate hf hyf, parseDate_formatDate ht hyt]
    dsimp only
    split_ifs with h
    · unfold getDaysInRange
      rw [show dayNumber t + 1 - dayNumber f = 0 by omega]
      rfl
    · rfl
  · exact List.Nodup.filter _ (getDaysInRange_nodup hf)
  · intro d
    rw [List.mem_filter, mem_getDaysInRange hf]
    simp only [Bool.and_eq_true, Bool.not_eq_true']
    tauto

theorem c6_witness :
    countWorkingDays (formatDate ⟨2026, 2, 2⟩) (formatDate ⟨2026, 2, 6⟩) =
      ((getDaysInRange ⟨2026, 2, 2⟩ ⟨2026, 2, 6⟩).filter
        (fun d => !(isWeekend d) && !(isBankHoliday (formatDate d)))).length :=
  (c6_leave_working_day_counter ⟨2026, 2, 2⟩ ⟨2026, 2, 6⟩
    (by decide) (by decide) (by decide) (by decide)).1

theorem c7_counterexample :
    (getCalendarGrid 2026 1).length = 34 ∧
    ¬ (7 ∣ (getCalendarGrid 2026 1).length) := by decide

/-- C7 (amended): the Leave page's full grid builder pads with leading and
trailing spill-over dates so its cell count is always a multiple of 7; the
office tracker's `getCalendarGrid` emits only the leading empty slots, so
its cell count is `startOffset + daysInMonth`, which need not be a multiple
of 7. -/
theorem c7_calendar_grid_weeks (y m : Nat) :
    7 ∣ (buildFullCalendarGrid y m).length ∧
    (getCalendarGrid y m).length = startOffset y m + daysInMonthIdx y m := by
  constructor
  · unfold buildFullCalendarGrid
    simp only [List.length_append, List.length_map, List.length_range]
    split_ifs with h
    · simp only [List.length_append, List.length_map, List.length_range]
      omega
    · simp only [List.length_append, List.length_map, List.length_range]
      omega
  · unfold getCalendarGrid
    simp

theorem c8_counterexample :
    (applyLoad { defaultTrackerState 2026 1 with reqValue := 80 } none).reqValue = 80 ∧
    (defaultTrackerState 2026 1).reqValue = 60 ∧
    (applyLoad { defaultTrackerState 2026 1 with reqValue := 80 } none).reqValue ≠
      (defaultTrackerState 2026 1).reqValue := by decide

/-- C8 (amended): an absent officeTracker document is not an error: the load
clears the office-day and exclusion sets and keeps the currently loaded
settings (required percentage and toggles).  On a fresh view those settings
are the defaults, so loading an absent month into the default state leaves
exactly the default configuration. -/
theorem c8_absent_document (s : TrackerState) (y mIdx : Nat) :
    applyLoad s none = { s with officeDays := ∅, excludedDays := [] } ∧
    applyLoad (defaultTrackerState y mIdx) none = defaultTrackerState y mIdx :=
  ⟨rfl, rfl⟩

theorem c9_counterexample :
    validDate ⟨999, 12, 31⟩ = true ∧ validDate ⟨1000, 1, 1⟩ = true ∧
    dayNumber (⟨999, 12, 31⟩ : CalDate) < dayNumber (⟨1000, 1, 1⟩ : CalDate) ∧
    ¬ (formatDate ⟨999, 12, 31⟩ < formatDate ⟨1000, 1, 1⟩) := by
  refine ⟨by decide, by decide, by decide, ?_⟩
  rw [String.lt_iff_toList_lt]
  decide

/-- C9 (amended): for valid dates whose years have four digits (1000-9999),
chronological order coincides with lexicographic order of the formatted
DateKey strings; outside that range `formatDate` does not zero-pad the year
and the equivalence fails. -/
theorem c9_datekey_order (d1 d2 : CalDate) (hv1 : validDate d1 = true)
    (hv2 : validDate d2 = true) (h1 : 1000 ≤ d1.year) (h2 : d1.year ≤ 9999)
    (h3 : 1000 ≤ d2.year) (h4 : d2.year ≤ 9999) :
    dayNumber d1 < dayNumber d2 ↔ formatDate d1 < formatDate d2 := by
  rw [formatDate_lt_iff hv1 hv2 h1 h2 h3 h4]
  exact dayNumber_lt_iff hv1 hv2

theorem c9_witness :
    dayNumber (⟨2026, 2, 3⟩ : CalDate) < dayNumber (⟨2026, 2, 10⟩ : CalDate) ↔
      formatDate ⟨2026, 2, 3⟩ < formatDate ⟨2026, 2, 10⟩ :=
  c9_datekey_order ⟨2026, 2, 3⟩ ⟨2026, 2, 10⟩ (by decide) (by decide)
    (by decide) (by decide) (by decide) (by decide)

theorem c10_counterexample :
    validDate ⟨50, 1, 1⟩ = true ∧
    parseDate (formatDate ⟨50, 1, 1⟩) ≠ (⟨50, 1, 1⟩ : CalDate) := by decide

/-- C10 (amended): `parseDate` inverts `formatDate` for every valid date
with year at least 100 (the JS constructor maps years 0-99 to 1900-1999);
`formatDate` inverts `parseDate` on fully zero-padded DateKeys whose year
field has no leading zero (years 1000-9999), since `formatDate` does not
zero-pad smaller years. -/
theorem c10_date_codec_roundtrip :
    (∀ dt : CalDate, validDate dt = true → 100 ≤ dt.year →
      parseDate (formatDate dt) = dt) ∧
    (∀ y m d : Nat, validDate ⟨y, m, d⟩ = true → 1000 ≤ y → y ≤ 9999 →
      formatDate (parseDate (zeroPaddedKey y m d)) = zeroPaddedKey y m d) := by
  constructor
  · intro dt hv hy
    exact parseDate_formatDate hv hy
  · intro y m d hv h1 h2
    have hkey : zeroPaddedKey y m d = formatDate ⟨y, m, d⟩ := by
      unfold zeroPaddedKey formatDate pad4
      rw [if_neg (by omega), if_neg (by omega), if_neg (by omega)]
    rw [hkey, parseDate_formatDate hv (by dsimp only; omega)]

theorem c10_witness :
    parseDate (formatDate ⟨2026, 2, 3⟩) = (⟨2026, 2, 3⟩ : CalDate) ∧
    formatDate (parseDate (zeroPaddedKey 2026 2 3)) = zeroPaddedKey 2026 2 3 :=
  ⟨c10_date_codec_roundtrip.1 ⟨2026, 2, 3⟩ (by decide) (by decide),
   c10_date_codec_roundtrip.2 2026 2 3 (by decide) (by decide) (by decide)⟩
